import Mathlib

/-!
Shallow embedding of the shunting-yard repository (teleprint-me/shunting-yard).

Sources embedded here:
  - `src/lexer/token.c` (src/unnamed/part_005): character classes, the
    precedence table `token_precedence`, and the token constructors.
  - `src/lexer/tokenizer.c`: the `tokenizer` scan loop.
  - `src/parser.c`: `shunt_unary`, `shunt_precedent`, `shunt_group`,
    `shunt_yard`, `shunt_is_valid_infix`.
  - `src/lexer/token_list.c` (src/unnamed/part_007): `token_list_pop_index`.

Modelling conventions: C strings become `List Char` (no interior NUL),
`Token*` arguments that may be NULL become `Option Token`, a `TokenList`
used by the converter becomes `List Token` (index 0 = slot 0, push/pop at
the tail; `token_list_push` clones, so value semantics is exact), and the
raw slot array of `token_list_pop_index` - whose slots can legitimately
hold NULL after that function runs - becomes `List (Option Token)`.
Allocation failure (`malloc`/`realloc` returning NULL) is not modelled:
every run is the no-OOM run, so the push-failure branches of the C are
dead here.
-/

-- ===== Token model (include/lexer/token.h and src/lexer/token.c) =====

/-- Modelled from the spec: the current `include/lexer/token.h` (absent from
`src/`; only an older revision without the Unary rank is present) defines the
`Precedent` enum used by `src/parser.c` and `src/lexer/token.c`, including
`TOKEN_PRECEDENT_UNARY`.  The spec fixes the order: Error(-1), None(0),
Additive(1), Multiplicative(2), and a distinct Unary rank strictly higher
than Multiplicative; we give Unary the next integer, 3. -/
inductive Precedent where
  | error
  | none
  | additive
  | multiplicative
  | unary
deriving Repr, DecidableEq

/-- Integer value of a `Precedent`, as the C enum converts to `int` in
`shunt_precedent`.  Unary's value is modelled from the spec (see above). -/
def Precedent.toInt : Precedent → Int
  | .error => -1
  | .none => 0
  | .additive => 1
  | .multiplicative => 2
  | .unary => 3

inductive Associate where
  | none
  | left
  | right
deriving Repr, DecidableEq

inductive TokenRole where
  | none
  | unary
  | binary
deriving Repr, DecidableEq

inductive TokenKind where
  | none
  | literal
  | operator
  | group
deriving Repr, DecidableEq

inductive TokenType where
  | none
  | integer
  | float
  | plus
  | minus
  | star
  | slash
  | mod
  | leftParen
  | rightParen
deriving Repr, DecidableEq

/-- The `Token` struct of `include/lexer/token.h`. -/
structure Token where
  precedence : Precedent
  association : Associate
  role : TokenRole
  kind : TokenKind
  type : TokenType
  size : Nat
  lexeme : String
deriving Repr, DecidableEq

-- --- ASCII character classification (token.c) ---

/-- The `isop` switch of token.c. -/
def isop (s : Char) : Bool :=
  s == '+' || s == '-' || s == '*' || s == '/' || s == '%'

/-- The `isgroup` switch of token.c. -/
def isgroup (s : Char) : Bool :=
  s == '(' || s == ')'

/-- C `isspace` in the C locale, as used by tokenizer.c. -/
def isspacec (s : Char) : Bool :=
  s == ' ' || s == '\t' || s == '\n' || s == '\x0b' || s == '\x0c' || s == '\r'

-- --- Precedence table (token.c, token_precedence) ---

/-- `token_precedence` of token.c: a pure function of `type` (NULL argument
yields the Error rank).  Note that it never returns the Unary rank; the
stored `precedence` field is not consulted. -/
def token_precedence : Option Token → Precedent
  | Option.none => .error
  | Option.some t =>
    match t.type with
    | .plus | .minus => .additive
    | .star | .slash | .mod => .multiplicative
    | _ => .none

-- --- Token classification predicates (token.c); NULL maps to false ---

def token_is_number : Option Token → Bool
  | Option.none => false
  | Option.some t =>
    match t.type with
    | .integer | .float => true
    | _ => false

def token_is_operator : Option Token → Bool
  | Option.none => false
  | Option.some t =>
    match t.type with
    | .plus | .minus | .star | .slash | .mod => true
    | _ => false

def token_is_type (t : Option Token) (ty : TokenType) : Bool :=
  match t with
  | Option.none => false
  | Option.some t => t.type == ty

def token_is_type_plus (t : Option Token) : Bool := token_is_type t .plus

def token_is_type_minus (t : Option Token) : Bool := token_is_type t .minus

def token_is_type_left_paren (t : Option Token) : Bool := token_is_type t .leftParen

def token_is_type_right_paren (t : Option Token) : Bool := token_is_type t .rightParen

def token_is_associate (t : Option Token) (a : Associate) : Bool :=
  match t with
  | Option.none => false
  | Option.some t => t.association == a

def token_is_associate_left (t : Option Token) : Bool := token_is_associate t .left

def token_is_role (t : Option Token) (r : TokenRole) : Bool :=
  match t with
  | Option.none => false
  | Option.some t => t.role == r

def token_is_role_unary (t : Option Token) : Bool := token_is_role t .unary

def token_is_role_binary (t : Option Token) : Bool := token_is_role t .binary

-- --- Token constructors (token.c) ---

/-- The scanning loop of `token_create_number`: consume digits and at most
one decimal point.  Returns (consumed lexeme, unconsumed remainder, seen_dot). -/
def num_scan : Bool → List Char → List Char × List Char × Bool
  | seen, [] => ([], [], seen)
  | seen, c :: cs =>
    if c.isDigit then
      let r := num_scan seen cs
      (c :: r.1, r.2.1, r.2.2)
    else if !seen && c == '.' then
      let r := num_scan true cs
      (c :: r.1, r.2.1, r.2.2)
    else
      ([], c :: cs, seen)

/-- `token_create_number` of token.c: scan a numeric literal at the head of
the input and build the token.  `size = strlen(lexeme)` equals the span
(the consumed characters are digits or '.', never NUL). -/
def token_create_number (cs : List Char) : Token :=
  let lex := (num_scan false cs).1
  let seen := (num_scan false cs).2.2
  { precedence := .none, association := .none, role := .none,
    kind := .literal, type := if seen then .float else .integer,
    size := lex.length, lexeme := String.mk lex }

/-- `token_create_operator` of token.c for an operator character (the
`isop` guard holds at every call site in the tokenizer). -/
def token_create_operator (c : Char) : Token :=
  let ty : TokenType :=
    if c == '+' then .plus
    else if c == '-' then .minus
    else if c == '*' then .star
    else if c == '/' then .slash
    else if c == '%' then .mod
    else .none
  { precedence := token_precedence (Option.some
      { precedence := .none, association := .none, role := .none,
        kind := .none, type := ty, size := 1, lexeme := String.mk [c] }),
    association := .left, role := .binary, kind := .operator,
    type := ty, size := 1, lexeme := String.mk [c] }

/-- `token_create_group` of token.c for a parenthesis character. -/
def token_create_group (c : Char) : Token :=
  { precedence := .none, association := .none, role := .none,
    kind := .group,
    type := if c == '(' then .leftParen
            else if c == ')' then .rightParen
            else .none,
    size := 1, lexeme := String.mk [c] }

-- ===== Tokenizer (src/lexer/tokenizer.c) =====

/-- The `tokenizer` loop of tokenizer.c, with an explicit step budget: at
each position dispatch on the head character (digit, operator, group,
whitespace, else fail) and advance by the emitted token's `size`.  Every
iteration consumes at least one character, so a budget of the input length
always suffices; the out-of-budget clause is unreachable from the wrapper
(`tokenize_go_fuel` below) and exists only to make the recursion
structural. -/
def tokenize_go : Nat → List Char → Option (List Token)
  | _, [] => Option.some []
  | 0, _ :: _ => Option.none
  | fuel + 1, c :: cs =>
    if c.isDigit then
      let t := token_create_number (c :: cs)
      (tokenize_go fuel ((c :: cs).drop t.size)).map (fun ts => t :: ts)
    else if isop c then
      (tokenize_go fuel cs).map (fun ts => token_create_operator c :: ts)
    else if isgroup c then
      (tokenize_go fuel cs).map (fun ts => token_create_group c :: ts)
    else if isspacec c then
      tokenize_go fuel cs
    else
      Option.none

/-- `tokenizer` of tokenizer.c. -/
def tokenize (cs : List Char) : Option (List Token) := tokenize_go cs.length cs

-- ===== Token sequence container (src/lexer/token_list.c) =====

/-- `token_list_push`: clones the token into the tail slot (growth by
doubling is invisible to value semantics). -/
def token_list_push (l : List Token) (t : Token) : List Token := l ++ [t]

/-- `token_list_peek`: borrowed view of the tail element, NULL when empty. -/
def token_list_peek (l : List Token) : Option Token := l.getLast?

/-- `token_list_peek_index`: borrowed view of slot `index`, NULL when out
of range. -/
def token_list_peek_index (l : List Token) (index : Nat) : Option Token :=
  l.get? index

/-- `token_list_pop`: remove the tail element and hand back an owned copy;
NULL on empty.  Here we only need the resulting list (`dropLast`) and the
returned copy (`getLast?`), which the converter always uses together. -/
def token_list_is_empty (l : List Token) : Bool := l.length == 0

-- ===== Shunting-yard converter (src/parser.c) =====

/-- `shunt_unary` of parser.c: reclassify the operator at position `i` as
unary iff it is first or the previous infix token is an operator or a left
parenthesis.  The C mutates the token in place; the embedding returns the
(possibly) rewritten token.  The look-back reads only the `type` field of
the previous token, which no mutation ever changes, so reading the original
infix list is exact. -/
def shunt_unary (infixToks : List Token) (symbol : Token) (i : Nat) : Token :=
  let prev : Option Token :=
    if i > 0 then token_list_peek_index infixToks (i - 1) else Option.none
  if i == 0 || token_is_operator prev || token_is_type_left_paren prev then
    { symbol with role := .unary, association := .right, precedence := .unary }
  else
    symbol

/-- The while loop of `shunt_precedent`, acting on the operator stack
viewed top-first (the reverse of slot order, so popping the tail slot is
taking the head): while the top is an operator that is not a left
parenthesis and the precedence test passes, pop it to the output queue. -/
def prec_loop : List Token → List Token → Token → List Token × List Token
  | post, [], _ => (post, [])
  | post, op :: rest, symbol =>
    if !token_is_operator (Option.some op) || token_is_type_left_paren (Option.some op) then
      (post, op :: rest)
    else
      let o1 := (token_precedence (Option.some symbol)).toInt
      let o2 := (token_precedence (Option.some op)).toInt
      if o2 > o1 || (o2 == o1 && token_is_associate_left (Option.some symbol)) then
        prec_loop (token_list_push post op) rest symbol
      else
        (post, op :: rest)

/-- `shunt_precedent` of parser.c: while the stack's top is an operator
that is not a left parenthesis and `token_precedence` (recomputed from
`type`) says so, pop it to the output queue.  Returns (queue, stack) with
the stack back in slot order. -/
def shunt_precedent (post : List Token) (ops : List Token) (symbol : Token) :
    List Token × List Token :=
  ((prec_loop post ops.reverse symbol).1, (prec_loop post ops.reverse symbol).2.reverse)

/-- The while loop of `shunt_group`, on the stack viewed top-first: pop
operators to the output queue until a left parenthesis is on top (then
discard it); fail if the stack empties first. -/
def group_loop : List Token → List Token → Option (List Token × List Token)
  | _, [] => Option.none
  | post, op :: rest =>
    if token_is_type_left_paren (Option.some op) then
      Option.some (post, rest)
    else
      group_loop (token_list_push post op) rest

/-- `shunt_group` of parser.c: on a right parenthesis, pop operators to the
output queue until a left parenthesis appears at the top; discard it.  If
the stack empties first, fail (mismatched parentheses). -/
def shunt_group (post : List Token) (ops : List Token) :
    Option (List Token × List Token) :=
  (group_loop post ops.reverse).map (fun pr => (pr.1, pr.2.reverse))

/-- One iteration of the `shunt_yard` for-loop at index `i`, acting on the
state (output queue, operator stack).  A token that is neither number,
operator, nor parenthesis falls through the if-chain with no action, as in
the C. -/
def shunt_process (infixToks : List Token) (st : List Token × List Token)
    (i : Nat) : Option (List Token × List Token) :=
  match token_list_peek_index infixToks i with
  | Option.none => Option.some st
  | Option.some symbol =>
    if token_is_number (Option.some symbol) then
      Option.some (token_list_push st.1 symbol, st.2)
    else if token_is_operator (Option.some symbol) then
      let symbol := shunt_unary infixToks symbol i
      let pr := shunt_precedent st.1 st.2 symbol
      Option.some (pr.1, token_list_push pr.2 symbol)
    else if token_is_type_left_paren (Option.some symbol) then
      Option.some (st.1, token_list_push st.2 symbol)
    else if token_is_type_right_paren (Option.some symbol) then
      shunt_group st.1 st.2
    else
      Option.some st

/-- The `shunt_yard` loop run over indices `0 .. n-1`, starting from empty
queue and stack; `Option.none` is the error path (goto error). -/
def shunt_run_upto (infixToks : List Token) : Nat → Option (List Token × List Token)
  | 0 => Option.some ([], [])
  | n + 1 =>
    match shunt_run_upto infixToks n with
    | Option.none => Option.none
    | Option.some st => shunt_process infixToks st n

/-- The final while loop of `shunt_yard` on the stack viewed top-first:
pop every remaining token to the output queue. -/
def drain_loop : List Token → List Token → List Token
  | post, [] => post
  | post, op :: rest => drain_loop (token_list_push post op) rest

/-- The final drain of `shunt_yard`: pop every remaining stack token to the
output queue in pop (tail-first) order. -/
def shunt_drain (post : List Token) (ops : List Token) : List Token :=
  drain_loop post ops.reverse

/-- `shunt_yard` of parser.c: reject an empty infix sequence, run the loop
over all tokens, then drain the stack into the output queue. -/
def shunt_yard (infixToks : List Token) : Option (List Token) :=
  if token_list_is_empty infixToks then
    Option.none
  else
    match shunt_run_upto infixToks infixToks.length with
    | Option.none => Option.none
    | Option.some st => Option.some (shunt_drain st.1 st.2)

-- ===== Infix validator (src/parser.c, shunt_is_valid_infix) =====

/-- The loop body of `shunt_is_valid_infix`, with `prev` the previous token
(NULL before the first iteration).  The `i == count - 1` check of the C is
the `rest.isEmpty` test here. -/
def validInfixGo : Option Token → List Token → Bool
  | _, [] => true
  | prev, c :: rest =>
    if token_is_operator (Option.some c) && token_is_operator prev &&
        !token_is_type_left_paren prev && !token_is_type_right_paren (Option.some c) &&
        !(token_is_type_plus (Option.some c) || token_is_type_minus (Option.some c)) then
      false
    else if rest.isEmpty && token_is_operator (Option.some c) then
      false
    else
      validInfixGo (Option.some c) rest

/-- `shunt_is_valid_infix` of parser.c. -/
def shuntIsValidInfix (infixToks : List Token) : Bool :=
  validInfixGo Option.none infixToks

-- ===== token_list_pop_index (src/lexer/token_list.c) =====

/-- The body of the shift loop of `token_list_pop_index`, iterated a fixed
number of times: `tokens[i] = tokens[i+1]; i++`.  Reading one slot past the
end of the modelled array yields NULL (the only input we evaluate stays in
bounds). -/
def shift_left_go : List (Option Token) → Nat → Nat → List (Option Token)
  | arr, _, 0 => arr
  | arr, i, k + 1 => shift_left_go (arr.set i (arr.getD (i + 1) Option.none)) (i + 1) k

/-- The shift loop of `token_list_pop_index`:
`for (size_t i = index; i < bound; ++i) tokens[i] = tokens[i+1];`,
which runs exactly `bound - i` iterations. -/
def shift_left (arr : List (Option Token)) (i bound : Nat) : List (Option Token) :=
  shift_left_go arr i (bound - i)

/-- `token_list_pop_index` of token_list.c on the slot array: normalize a
negative index, take the slot, NULL it, clone it for the caller, decrement
the count, then run the shift loop with C bound `count - 1` computed in
`size_t` (so it wraps to `2^64 - 1` when the decremented count is 0 - the
one-element case is an out-of-bounds loop in the C, undefined behavior we
do not evaluate).  Returns (popped copy, remaining slots). -/
def token_list_pop_index (slots : List (Option Token)) (index : Int) :
    Option Token × List (Option Token) :=
  if slots.length == 0 then
    (Option.none, slots)
  else
    let idx : Int := if index < 0 then index + slots.length else index
    if idx < 0 || slots.length ≤ idx then
      (Option.none, slots)
    else
      match slots.getD idx.toNat Option.none with
      | Option.none => (Option.none, slots)
      | Option.some tok =>
        let arr := slots.set idx.toNat Option.none
        let count : Nat := slots.length - 1
        let bound : Nat := if count == 0 then 2 ^ 64 - 1 else count - 1
        (Option.some tok, (shift_left arr idx.toNat bound).take count)

-- ===== Concrete fixtures =====

/-- The tokenizer's integer token for "1". -/
def tokOne : Token := token_create_number ("1".toList)

/-- The tokenizer's integer token for "2". -/
def tokTwo : Token := token_create_number ("2".toList)

/-- The tokenizer's integer token for "3". -/
def tokThree : Token := token_create_number ("3".toList)

/-- The tokenizer's binary plus token. -/
def tokPlus : Token := token_create_operator '+'

/-- The tokenizer's binary minus token. -/
def tokMinus : Token := token_create_operator '-'

/-- The tokenizer's right-parenthesis token. -/
def tokRP : Token := token_create_group ')'

/-- The tokenizer's left-parenthesis token. -/
def tokLP : Token := token_create_group '('

/-- A minus token after `shunt_unary` reclassified it (here as the first
token of its expression): role Unary, association Right, stored precedence
Unary. -/
def unaryMinusTok : Token := shunt_unary [token_create_operator '-'] (token_create_operator '-') 0

/-- Concatenation of the lexemes of a token sequence, as re-tokenizer
input. -/
def lexcat (ts : List Token) : List Char :=
  (ts.map (fun t => t.lexeme.toList)).flatten

-- ===== Spec-side definitions, for comparison with the source =====

/-- The unary-reclassification condition as the spec states it: position 0,
or the immediately preceding infix token is an Operator or a LeftParen. -/
def specUnaryCondition (infixToks : List Token) (i : Nat) : Prop :=
  i = 0 ∨ ∃ prev, token_list_peek_index infixToks (i - 1) = Option.some prev ∧
    (token_is_operator (Option.some prev) = true ∨
      token_is_type_left_paren (Option.some prev) = true)

instance (infixToks : List Token) (i : Nat) : Decidable (specUnaryCondition infixToks i) := by
  unfold specUnaryCondition
  infer_instance

/-- An adjacent token pair the infix validator accepts: not two operators
whose second is neither `+` nor `-`.  (The validator's further conditions -
first not a LeftParen, second not a RightParen - are vacuous, because
`token_is_operator` is false on parentheses; see
`shuntIsValidInfix_characterization`.) -/
def okPair (a b : Token) : Bool :=
  !(token_is_operator (Option.some a) && token_is_operator (Option.some b) &&
    !(token_is_type_plus (Option.some b) || token_is_type_minus (Option.some b)))

/-- Every adjacent pair of the sequence is acceptable to the infix
validator. -/
def adjacent_ops_ok : List Token → Bool
  | a :: b :: rest => okPair a b && adjacent_ops_ok (b :: rest)
  | _ => true

/-- The last token of the sequence is not an operator (vacuously true of
the empty sequence). -/
def no_trailing_op : List Token → Bool
  | [] => true
  | [c] => !token_is_operator (Option.some c)
  | _ :: c :: rest => no_trailing_op (c :: rest)

/-- No literal token is immediately followed by another literal token
(two such lexemes would merge when concatenated without whitespace). -/
def no_adjacent_literals : List Token → Bool
  | a :: b :: rest =>
    !(token_is_number (Option.some a) && token_is_number (Option.some b)) &&
      no_adjacent_literals (b :: rest)
  | _ => true

/-- A token the tokenizer can emit: a numeric literal (nonempty digit-led
lexeme of digits with at most one dot, Float exactly when a dot is
present), or exactly one of the seven operator/parenthesis tokens. -/
def tokWF (t : Token) : Bool :=
  match t.type with
  | .integer =>
    (match t.lexeme.toList with
     | [] => false
     | c :: cs => c.isDigit && cs.all Char.isDigit) &&
    t.kind == TokenKind.literal && t.role == TokenRole.none &&
    t.association == Associate.none && t.precedence == Precedent.none &&
    t.size == t.lexeme.toList.length
  | .float =>
    (match t.lexeme.toList with
     | [] => false
     | c :: cs =>
       c.isDigit && (c :: cs).all (fun x => x.isDigit || x == '.') &&
         (c :: cs).count '.' == 1) &&
    t.kind == TokenKind.literal && t.role == TokenRole.none &&
    t.association == Associate.none && t.precedence == Precedent.none &&
    t.size == t.lexeme.toList.length
  | .plus => t == token_create_operator '+'
  | .minus => t == token_create_operator '-'
  | .star => t == token_create_operator '*'
  | .slash => t == token_create_operator '/'
  | .mod => t == token_create_operator '%'
  | .leftParen => t == token_create_group '('
  | .rightParen => t == token_create_group ')'
  | .none => false

-- ===== Supporting lemmas =====

theorem num_scan_cons_digit (seen : Bool) (c : Char) (cs : List Char)
    (h : c.isDigit = true) :
    num_scan seen (c :: cs) =
      ((c :: (num_scan seen cs).1), (num_scan seen cs).2.1, (num_scan seen cs).2.2) := by
  simp [num_scan, h]

/-- The step budget is irrelevant as soon as it covers the input length:
`tokenize_go` is the C while loop, which consumes at least one character
per iteration. -/
theorem tokenize_go_fuel (f : Nat) : ∀ (g : Nat) (cs : List Char),
    cs.length ≤ f → cs.length ≤ g → tokenize_go f cs = tokenize_go g cs := by
  induction f with
  | zero =>
    intro g cs hf _
    have : cs = [] := List.length_eq_zero.mp (Nat.le_zero.mp hf)
    subst this
    simp [tokenize_go]
  | succ f ih =>
    intro g cs hf hg
    match cs, g with
    | [], g => simp [tokenize_go]
    | c :: cs, 0 => simp at hg
    | c :: cs, g + 1 =>
      simp only [tokenize_go]
      by_cases hdig : c.isDigit
      · simp only [hdig, if_true]
        have hspan : 0 < (token_create_number (c :: cs)).size := by
          simp [token_create_number, num_scan_cons_digit _ _ _ hdig]
        have hlen : ((c :: cs).drop (token_create_number (c :: cs)).size).length ≤ f := by
          simp only [List.length_drop, List.length_cons] at *
          omega
        have hlen2 : ((c :: cs).drop (token_create_number (c :: cs)).size).length ≤ g := by
          simp only [List.length_drop, List.length_cons] at *
          omega
        rw [ih _ _ hlen hlen2]
      · have hcs : cs.length ≤ f := by simp at hf; omega
        have hcs2 : cs.length ≤ g := by simp at hg; omega
        rw [ih _ _ hcs hcs2]
        simp [hdig]

/-- Evaluating the tokenizer with any sufficient budget agrees with
`tokenize`. -/
theorem tokenize_go_eq_tokenize (f : Nat) (cs : List Char) (h : cs.length ≤ f) :
    tokenize_go f cs = tokenize cs :=
  tokenize_go_fuel f cs.length cs h (Nat.le_refl _)

/-- A number token (by `type`) is classified as neither operator nor
parenthesis: all these predicates read only `type`. -/
theorem number_not_operator_or_paren (t : Token)
    (h : token_is_number (Option.some t) = true) :
    token_is_operator (Option.some t) = false ∧
    token_is_type_left_paren (Option.some t) = false ∧
    token_is_type_right_paren (Option.some t) = false := by
  cases htype : t.type <;>
    simp_all [token_is_number, token_is_operator, token_is_type_left_paren,
      token_is_type_right_paren, token_is_type]

/-- An operator token (by `type`) is classified as neither parenthesis. -/
theorem operator_not_paren (t : Token)
    (h : token_is_operator (Option.some t) = true) :
    token_is_type_left_paren (Option.some t) = false ∧
    token_is_type_right_paren (Option.some t) = false := by
  cases htype : t.type <;>
    simp_all [token_is_operator, token_is_type_left_paren,
      token_is_type_right_paren, token_is_type]

-- ===== Claim theorems =====

/-- C1: the claim says the operator step compares the precedence stored by
unary reclassification, so a unary-reclassified operator atop the stack is
popped before any arriving binary operator.  The code instead recomputes
precedence from `type` via `token_precedence`, which never returns the
Unary rank: the reclassified minus carries stored precedence Unary (3,
strictly above Multiplicative) yet compares as Additive (1), so an arriving
`*` pops nothing, and `-5*4` converts to `5 4 * -` rather than the claimed
`5 - 4 *`. -/
theorem shunt_precedent_ignores_unary_rank :
    unaryMinusTok.role = TokenRole.unary ∧
    unaryMinusTok.precedence = Precedent.unary ∧
    Precedent.multiplicative.toInt < Precedent.unary.toInt ∧
    (token_precedence (Option.some unaryMinusTok)).toInt = Precedent.additive.toInt ∧
    shunt_precedent [] [unaryMinusTok] (token_create_operator '*') = ([], [unaryMinusTok]) ∧
    ((tokenize "-5*4".toList).bind shunt_yard).map (List.map Token.lexeme) =
      Option.some ["5", "4", "*", "-"] ∧
    ((tokenize "-5*4".toList).bind shunt_yard).map (List.map Token.lexeme) ≠
      Option.some ["5", "-", "4", "*"] := by decide

/-- C2: converting the tokenization of
`"(((53 + 2) - (-5 * 4)) / 5) % 100"` actually produces the postfix lexeme
sequence `53 2 + 5 4 * - - 5 / 100 %`, not the claimed
`53 2 + 5 - 4 * - 5 / 100 %`: the unary minus is emitted after `4 *`, not
before `4` (see C1 for the cause). -/
theorem shunt_yard_nested_example_actual :
    ((tokenize "(((53 + 2) - (-5 * 4)) / 5) % 100".toList).bind shunt_yard).map
        (List.map Token.lexeme) =
      Option.some ["53", "2", "+", "5", "4", "*", "-", "-", "5", "/", "100", "%"] ∧
    ((tokenize "(((53 + 2) - (-5 * 4)) / 5) % 100".toList).bind shunt_yard).map
        (List.map Token.lexeme) ≠
      Option.some ["53", "2", "+", "5", "-", "4", "*", "-", "5", "/", "100", "%"] := by decide

/-- C9: tokenizing the empty text yields a non-failing empty token
sequence, and the converter rejects the empty sequence. -/
theorem tokenize_empty_and_convert_empty :
    tokenize "".toList = Option.some [] ∧ shunt_yard [] = Option.none := by decide

/-- C10: the claim says `token_list_pop_index` leaves the remaining `n-1`
elements in order with none lost, duplicated, or replaced by an empty
slot.  The shift loop's bound is off by one: popping index 0 of the
two-element list `[1, 2]` leaves `[NULL]` (the element `2` is lost and an
empty slot remains), and popping index 0 of `[1, 2, 3]` leaves `[2, 2]`
(`2` duplicated, `3` lost). -/
theorem token_list_pop_index_drops_element :
    token_list_pop_index [Option.some tokOne, Option.some tokTwo] 0 =
      (Option.some tokOne, [Option.none]) ∧
    (token_list_pop_index [Option.some tokOne, Option.some tokTwo] 0).2 ≠
      [Option.some tokTwo] ∧
    token_list_pop_index [Option.some tokOne, Option.some tokTwo, Option.some tokThree] 0 =
      (Option.some tokOne, [Option.some tokTwo, Option.some tokTwo]) := by decide

/-- C5 counterexample: `[1, +]` has balanced parentheses and no two
adjacent binary operators, yet `shunt_is_valid_infix` rejects it (its
trailing-operator check); and `[1, )]` - the well-formed `[1]` with an
unmatched right parenthesis introduced - still validates, because
parenthesis balance is never checked. -/
theorem shuntIsValidInfix_claim_counterexample :
    shuntIsValidInfix [tokOne, tokPlus] = false ∧
    shuntIsValidInfix [tokOne, tokRP] = true := by decide

/-- C6 counterexample: `"1 2"` tokenizes into two integer tokens, but
re-tokenizing the lexeme concatenation `"12"` yields a single token, so the
token counts (hence the kind/type sequences) differ. -/
theorem tokenize_lexcat_not_idempotent :
    (tokenize "1 2".toList).map List.length = Option.some 2 ∧
    ((tokenize "1 2".toList).bind (fun ts => tokenize (lexcat ts))).map List.length =
      Option.some 1 := by decide

/-- C3: during conversion, an operator token at position `i` acquires
role Unary, associativity Right, and precedence Unary if and only if
`i = 0` or the previous infix token is an operator or a left parenthesis
(the condition `specUnaryCondition`, a pure look-back at the infix
sequence: `shunt_unary` takes neither the output queue nor the operator
stack); otherwise the token is returned completely unchanged, keeping its
Binary role. -/
theorem shunt_unary_reclassification_iff :
    ∀ (infixToks : List Token) (symbol : Token) (i : Nat),
      token_list_peek_index infixToks i = Option.some symbol →
      token_is_operator (Option.some symbol) = true →
      symbol.role = TokenRole.binary →
      (((shunt_unary infixToks symbol i).role = TokenRole.unary ∧
        (shunt_unary infixToks symbol i).association = Associate.right ∧
        (shunt_unary infixToks symbol i).precedence = Precedent.unary) ↔
        specUnaryCondition infixToks i) ∧
      (¬ specUnaryCondition infixToks i → shunt_unary infixToks symbol i = symbol) := by
  intro toks symbol i hpeek hop hrole
  cases i with
  | zero =>
    constructor
    · constructor
      · intro _
        exact Or.inl rfl
      · intro _
        simp [shunt_unary]
    · intro hn
      exact absurd (Or.inl rfl) hn
  | succ k =>
    cases hprev : token_list_peek_index toks k with
    | none =>
      have hres : shunt_unary toks symbol (k + 1) = symbol := by
        simp [shunt_unary, hprev, token_is_operator, token_is_type_left_paren, token_is_type]
      constructor
      · constructor
        · intro hfields
          rw [hres] at hfields
          rw [hrole] at hfields
          exact absurd hfields.1 (by decide)
        · intro hcond
          rcases hcond with h0 | ⟨p, hp, _⟩
          · exact absurd h0 (Nat.succ_ne_zero k)
          · rw [Nat.succ_sub_one, hprev] at hp
            exact Option.noConfusion hp
      · intro _
        exact hres
    | some p =>
      by_cases hc : (token_is_operator (Option.some p) ||
          token_is_type_left_paren (Option.some p)) = true
      · have hres : shunt_unary toks symbol (k + 1) =
            { symbol with
                role := TokenRole.unary,
                association := Associate.right,
                precedence := Precedent.unary } := by
          simp only [shunt_unary, Nat.succ_sub_one, hprev]
          simp [hc]
        have hcond : specUnaryCondition toks (k + 1) := by
          rcases Bool.or_eq_true_iff.mp hc with h | h
          · exact Or.inr ⟨p, by rw [Nat.succ_sub_one]; exact hprev, Or.inl h⟩
          · exact Or.inr ⟨p, by rw [Nat.succ_sub_one]; exact hprev, Or.inr h⟩
        constructor
        · constructor
          · intro _
            exact hcond
          · intro _
            simp [hres]
        · intro hn
          exact absurd hcond hn
      · have hres : shunt_unary toks symbol (k + 1) = symbol := by
          simp only [shunt_unary, Nat.succ_sub_one, hprev]
          simp only [Bool.or_eq_true] at hc
          push_neg at hc
          simp [Bool.eq_false_iff.mpr hc.1, Bool.eq_false_iff.mpr hc.2]
        constructor
        · constructor
          · intro hfields
            rw [hres] at hfields
            rw [hrole] at hfields
            exact absurd hfields.1 (by decide)
          · intro hcond
            rcases hcond with h0 | ⟨q, hq, hcase⟩
            · exact absurd h0 (Nat.succ_ne_zero k)
            · rw [Nat.succ_sub_one, hprev] at hq
              have : q = p := by
                injection hq.symm
              subst this
              rcases hcase with h | h
              · exact absurd (Bool.or_eq_true_iff.mpr (Or.inl h)) hc
              · exact absurd (Bool.or_eq_true_iff.mpr (Or.inr h)) hc
        · intro _
          exact hres

/-- C3 witness: in the infix sequence `( -` the minus at position 1 has an
operator left parenthesis before it and is reclassified unary. -/
theorem shunt_unary_reclassification_iff_witness :
    token_list_peek_index [tokLP, tokMinus] 1 = Option.some tokMinus ∧
    token_is_operator (Option.some tokMinus) = true ∧
    tokMinus.role = TokenRole.binary ∧
    (shunt_unary [tokLP, tokMinus] tokMinus 1).role = TokenRole.unary :=
  ⟨by decide, by decide, by decide,
    ((shunt_unary_reclassification_iff [tokLP, tokMinus] tokMinus 1 (by decide) (by decide)
        (by decide)).1.mpr
      (Or.inr ⟨tokLP, by decide, Or.inr (by decide)⟩)).1⟩

/-- The `shunt_group` pop loop returns the mismatched-parenthesis failure
when the stack holds no left parenthesis. -/
theorem group_loop_no_lparen (ops : List Token) : ∀ post : List Token,
    (∀ u ∈ ops, token_is_type_left_paren (Option.some u) = false) →
    group_loop post ops = Option.none := by
  induction ops with
  | nil =>
    intro post _
    rfl
  | cons op rest ih =>
    intro post h
    have hop := h op (List.mem_cons_self op rest)
    simp only [group_loop, hop, Bool.false_eq_true, if_false]
    exact ih _ (fun u hu => h u (List.mem_cons_of_mem _ hu))

/-- `shunt_group` fails whenever the operator stack holds no left
parenthesis. -/
theorem shunt_group_no_lparen (post ops : List Token)
    (h : ∀ u ∈ ops, token_is_type_left_paren (Option.some u) = false) :
    shunt_group post ops = Option.none := by
  unfold shunt_group
  rw [group_loop_no_lparen ops.reverse post (fun u hu => h u (List.mem_reverse.mp hu))]
  rfl

/-- Once the conversion loop has failed, it stays failed: the C jumps to
the error exit. -/
theorem shunt_run_upto_none : ∀ (toks : List Token) (n m : Nat),
    shunt_run_upto toks n = Option.none → n ≤ m →
    shunt_run_upto toks m = Option.none := by
  intro toks n m
  induction m with
  | zero =>
    intro h hm
    have : n = 0 := Nat.le_zero.mp hm
    subst this
    exact h
  | succ m ih =>
    intro h hm
    by_cases hc : n ≤ m
    · have hmm := ih h hc
      simp [shunt_run_upto, hmm]
    · have : n = m + 1 := by omega
      subst this
      exact h

/-- C4: if the conversion loop reaches a right parenthesis while the
operator stack holds no left parenthesis, the whole conversion fails,
returning no result. -/
theorem shunt_yard_mismatched_rparen_fails :
    ∀ (infixToks : List Token) (i : Nat) (post ops : List Token) (t : Token),
      shunt_run_upto infixToks i = Option.some (post, ops) →
      token_list_peek_index infixToks i = Option.some t →
      token_is_type_right_paren (Option.some t) = true →
      (∀ u ∈ ops, token_is_type_left_paren (Option.some u) = false) →
      shunt_yard infixToks = Option.none := by
  intro toks i post ops t hrun hpeek hrp hnolp
  have htype : t.type = TokenType.rightParen := by
    simpa [token_is_type_right_paren, token_is_type] using hrp
  have hno : token_is_number (Option.some t) = false := by
    simp [token_is_number, htype]
  have hop : token_is_operator (Option.some t) = false := by
    simp [token_is_operator, htype]
  have hlp : token_is_type_left_paren (Option.some t) = false := by
    simp [token_is_type_left_paren, token_is_type, htype]
  have hstep : shunt_process toks (post, ops) i = Option.none := by
    simp [shunt_process, hpeek, hno, hop, hlp, hrp, shunt_group_no_lparen post ops hnolp]
  have hrun1 : shunt_run_upto toks (i + 1) = Option.none := by
    simp [shunt_run_upto, hrun, hstep]
  have hi : i < toks.length := by
    by_contra hge
    have hnone : toks.get? i = Option.none := List.get?_eq_none.mpr (Nat.le_of_not_lt hge)
    rw [token_list_peek_index, hnone] at hpeek
    exact Option.noConfusion hpeek
  have hfin : shunt_run_upto toks toks.length = Option.none :=
    shunt_run_upto_none toks (i + 1) toks.length hrun1 (by omega)
  have hne : (token_list_is_empty toks) = false := by
    simp only [token_list_is_empty, beq_eq_false_iff_ne, ne_eq]
    omega
  simp [shunt_yard, hne, hfin]

/-- C4 witness: `"1+)"` tokenizes to `1 + )`, the loop reaches the right
parenthesis at position 2 with stack `[+]` holding no left parenthesis,
and the conversion fails. -/
theorem shunt_yard_mismatched_rparen_fails_witness :
    tokenize "1+)".toList = Option.some [tokOne, tokPlus, tokRP] ∧
    shunt_run_upto [tokOne, tokPlus, tokRP] 2 = Option.some ([tokOne], [tokPlus]) ∧
    shunt_yard [tokOne, tokPlus, tokRP] = Option.none :=
  ⟨by decide, by decide,
    shunt_yard_mismatched_rparen_fails [tokOne, tokPlus, tokRP] 2 [tokOne] [tokPlus] tokRP
      (by decide) (by decide) (by decide)
      (by intro u hu; simp at hu; subst hu; decide)⟩

/-- Shape of the `token_create_number` scan: the consumed lexeme plus the
remainder reassemble the input, the lexeme consists of digits and dots, the
final seen-dot flag records whether a dot was consumed, at most one dot is
consumed, and the scan stops only at a non-digit that is not a consumable
dot (a second dot in particular stops it unconsumed). -/
theorem num_scan_shape : ∀ (l : List Char) (seen : Bool),
    (num_scan seen l).1 ++ (num_scan seen l).2.1 = l ∧
    (num_scan seen l).1.all (fun x => x.isDigit || x == '.') = true ∧
    (num_scan seen l).2.2 = (seen || (num_scan seen l).1.contains '.') ∧
    (num_scan seen l).1.count '.' ≤ (if seen then 0 else 1) ∧
    (∀ d ds, (num_scan seen l).2.1 = d :: ds →
      d.isDigit = false ∧ (d = '.' → (num_scan seen l).2.2 = true)) := by
  intro l
  induction l with
  | nil =>
    intro seen
    refine ⟨rfl, rfl, by simp [num_scan], ?_, ?_⟩
    · cases seen <;> simp [num_scan]
    · intro d ds h
      simp [num_scan] at h
  | cons c l ih =>
    intro seen
    by_cases hd : c.isDigit = true
    · have hstep := num_scan_cons_digit seen c l hd
      have hcd : (c == '.') = false := by
        cases hcc : c == '.'
        · rfl
        · have hc : c = '.' := by
            have := hcc
            simp at this
            exact this
          rw [hc] at hd
          exact absurd hd (by decide)
      have hne : c ≠ '.' := by
        intro h
        rw [h] at hcd
        simp at hcd
      obtain ⟨ih1, ih2, ih3, ih4, ih5⟩ := ih seen
      rw [hstep]
      refine ⟨?_, ?_, ?_, ?_, ?_⟩
      · simpa using ih1
      · simp [hd, ih2]
      · have hne2 : ¬ ('.' = c) := fun h => hne h.symm
        simp [List.contains_cons, hne2, ih3]
      · simpa [List.count_cons, hne] using ih4
      · intro d ds h
        exact ih5 d ds h
    · have hd' : c.isDigit = false := by
        revert hd
        cases c.isDigit <;> simp
      by_cases hdot : (!seen && c == '.') = true
      · have hseen : seen = false := by
          rcases Bool.and_eq_true_iff.mp hdot with ⟨h1, _⟩
          revert h1
          cases seen <;> simp
        have hceq : c = '.' := by
          rcases Bool.and_eq_true_iff.mp hdot with ⟨_, h2⟩
          simpa using h2
        subst hseen
        subst hceq
        have hstep : num_scan false ('.' :: l) =
            ('.' :: (num_scan true l).1, (num_scan true l).2.1, (num_scan true l).2.2) := by
          simp [num_scan]
        obtain ⟨ih1, ih2, ih3, ih4, ih5⟩ := ih true
        rw [hstep]
        have hcount : (num_scan true l).1.count '.' = 0 := by
          simpa using ih4
        refine ⟨by simpa using ih1, by simp [ih2], ?_, ?_, ?_⟩
        · rw [ih3]
          simp
        · simp [List.count_cons, hcount]
        · intro d ds h
          exact ih5 d ds h
      · have hdot' : (!seen && c == '.') = false := by
          revert hdot
          cases (!seen && c == '.') <;> simp
        have hstep : num_scan seen (c :: l) = ([], c :: l, seen) := by
          simp [num_scan, hd', hdot']
        rw [hstep]
        refine ⟨rfl, rfl, by simp, ?_, ?_⟩
        · cases seen <;> simp
        · intro d ds h
          injection h with h1 h2
          subst h1
          refine ⟨hd', ?_⟩
          intro hde
          subst hde
          revert hdot'
          cases seen <;> simp

/-- C7: at a digit, the numeric-literal scan consumes digits and at most
one decimal point; the emitted token's lexeme is exactly the consumed span
and its type is Float exactly when a dot was consumed; the token's `size`
(by which the tokenizer advances) is the lexeme's length; a '.' left
unconsumed at the head of the remainder means one dot was already
consumed (the second dot ends the scan without being consumed); and
concretely `"1.2.3"` scans to the token `"1.2"` with remainder `".3"`
while tokenizing the whole text fails. -/
theorem token_number_scan_spec :
    (∀ (c : Char) (cs : List Char), c.isDigit = true →
      (num_scan false (c :: cs)).1 ++ (num_scan false (c :: cs)).2.1 = c :: cs ∧
      (token_create_number (c :: cs)).lexeme = String.mk (num_scan false (c :: cs)).1 ∧
      (token_create_number (c :: cs)).size = (num_scan false (c :: cs)).1.length ∧
      (token_create_number (c :: cs)).type =
        (if (num_scan false (c :: cs)).1.contains '.' then TokenType.float
         else TokenType.integer) ∧
      (num_scan false (c :: cs)).1.count '.' ≤ 1 ∧
      (∀ d ds, (num_scan false (c :: cs)).2.1 = d :: ds → d = '.' →
        (num_scan false (c :: cs)).1.contains '.' = true)) ∧
    (token_create_number ("1.2.3".toList)).lexeme = "1.2" ∧
    (num_scan false ("1.2.3".toList)).2.1 = ".3".toList ∧
    tokenize ("1.2.3".toList) = Option.none := by
  constructor
  · intro c cs hd
    obtain ⟨h1, h2, h3, h4, h5⟩ := num_scan_shape (c :: cs) false
    refine ⟨h1, rfl, rfl, ?_, by simpa using h4, ?_⟩
    · simp only [token_create_number]
      rw [h3]
      simp
    · intro d ds hrest hdot
      have hseen := (h5 d ds hrest).2 hdot
      rw [h3] at hseen
      simpa using hseen
  · refine ⟨by decide, by decide, by decide⟩

/-- C7 witness: the general scan property applied at the digit-led text
`"1.2.3"`. -/
theorem token_number_scan_spec_witness :
    ('1'.isDigit = true) ∧
    (num_scan false ("1.2.3".toList)).1 ++ (num_scan false ("1.2.3".toList)).2.1 =
      "1.2.3".toList :=
  ⟨by decide, (token_number_scan_spec.1 '1' (".2.3".toList) (by decide)).1⟩

/-- C8: for any literal operands `a b c`, converting `a - b - c` yields
postfix `a b - c -` with both minuses still Binary (left associativity),
and for any literal `e`, converting `- - e` yields `e - -` with both minus
tokens reclassified Unary (chained unary minus does not collapse). -/
theorem shunt_yard_assoc_and_unary_chain :
    ∀ (a b c e : Token),
      token_is_number (Option.some a) = true →
      token_is_number (Option.some b) = true →
      token_is_number (Option.some c) = true →
      token_is_number (Option.some e) = true →
      shunt_yard [a, tokMinus, b, tokMinus, c] =
        Option.some [a, b, tokMinus, c, tokMinus] ∧
      tokMinus.role = TokenRole.binary ∧
      shunt_yard [tokMinus, tokMinus, e] =
        Option.some [e, unaryMinusTok, unaryMinusTok] ∧
      unaryMinusTok.role = TokenRole.unary := by
  intro a b c e ha hb hc he
  obtain ⟨hao, halp, harp⟩ := number_not_operator_or_paren a ha
  obtain ⟨hbo, hblp, hbrp⟩ := number_not_operator_or_paren b hb
  obtain ⟨hco, hclp, hcrp⟩ := number_not_operator_or_paren c hc
  obtain ⟨heo, help, herp⟩ := number_not_operator_or_paren e he
  have hm1 : token_is_number (Option.some tokMinus) = false := by decide
  have hm2 : token_is_operator (Option.some tokMinus) = true := by decide
  have hm3 : token_is_type_left_paren (Option.some tokMinus) = false := by decide
  have hm4 : token_is_type_right_paren (Option.some tokMinus) = false := by decide
  have hm5 : token_is_associate_left (Option.some tokMinus) = true := by decide
  have hm6 : token_precedence (Option.some tokMinus) = Precedent.additive := by decide
  have hu1 : token_is_number (Option.some unaryMinusTok) = false := by decide
  have hu2 : token_is_operator (Option.some unaryMinusTok) = true := by decide
  have hu3 : token_is_type_left_paren (Option.some unaryMinusTok) = false := by decide
  have hu5 : token_is_associate_left (Option.some unaryMinusTok) = false := by decide
  have hu6 : token_precedence (Option.some unaryMinusTok) = Precedent.additive := by decide
  have hum : shunt_unary [tokMinus, tokMinus, e] tokMinus 0 = unaryMinusTok := by rfl
  have hum2 : shunt_unary [tokMinus, tokMinus, e] tokMinus 1 = unaryMinusTok := by rfl
  refine ⟨?_, by decide, ?_, by decide⟩
  · simp [shunt_yard, token_list_is_empty, shunt_run_upto, shunt_process,
      token_list_peek_index, shunt_unary, shunt_precedent, prec_loop,
      shunt_drain, drain_loop, token_list_push,
      ha, hb, hc, hao, halp, harp, hbo, hblp, hbrp, hco, hclp, hcrp,
      hm1, hm2, hm3, hm4, hm5, hm6, Precedent.toInt]
  · simp [shunt_yard, token_list_is_empty, shunt_run_upto, shunt_process,
      token_list_peek_index, hum, hum2, shunt_precedent, prec_loop,
      shunt_drain, drain_loop, token_list_push,
      he, heo, help, herp,
      hm1, hm2, hm3, hm4, hm5, hm6, hu1, hu2, hu3, hu5, hu6, Precedent.toInt]

/-- C8 witness: the associativity and unary-chain results at the literal
operands 1, 2, 3 and 5. -/
theorem shunt_yard_assoc_and_unary_chain_witness :
    token_is_number (Option.some tokOne) = true ∧
    shunt_yard [tokOne, tokMinus, tokTwo, tokMinus, tokThree] =
      Option.some [tokOne, tokTwo, tokMinus, tokThree, tokMinus] ∧
    shunt_yard [tokMinus, tokMinus, token_create_number ("5".toList)] =
      Option.some [token_create_number ("5".toList), unaryMinusTok, unaryMinusTok] :=
  ⟨by decide,
    (shunt_yard_assoc_and_unary_chain tokOne tokTwo tokThree
      (token_create_number ("5".toList)) (by decide) (by decide) (by decide) (by decide)).1,
    (shunt_yard_assoc_and_unary_chain tokOne tokTwo tokThree
      (token_create_number ("5".toList)) (by decide) (by decide) (by decide)
      (by decide)).2.2.1⟩

/-- The validator's full pair condition collapses to `!okPair`: its
parenthesis conjuncts are vacuous because `token_is_operator` is false on
parentheses. -/
theorem pair_condition_eq (p c : Token) :
    (token_is_operator (Option.some c) && token_is_operator (Option.some p) &&
      !token_is_type_left_paren (Option.some p) &&
      !token_is_type_right_paren (Option.some c) &&
      !(token_is_type_plus (Option.some c) || token_is_type_minus (Option.some c))) =
    !okPair p c := by
  cases hp : token_is_operator (Option.some p)
  · simp [okPair, hp]
  · cases hc : token_is_operator (Option.some c)
    · simp [okPair, hp, hc]
    · obtain ⟨hplp, _⟩ := operator_not_paren p hp
      obtain ⟨_, hcrp⟩ := operator_not_paren c hc
      simp [okPair, hp, hc, hplp, hcrp]

/-- The validator loop with a live previous token checks exactly: all
adjacent pairs acceptable and no trailing operator. -/
theorem validInfixGo_eq : ∀ (l : List Token) (p : Token),
    validInfixGo (Option.some p) l = (adjacent_ops_ok (p :: l) && no_trailing_op l) := by
  intro l
  induction l with
  | nil =>
    intro p
    simp [validInfixGo, adjacent_ops_ok, no_trailing_op]
  | cons c rest ih =>
    intro p
    have hpair := pair_condition_eq p c
    cases hok : okPair p c
    · have hcond : (token_is_operator (Option.some c) && token_is_operator (Option.some p) &&
          !token_is_type_left_paren (Option.some p) &&
          !token_is_type_right_paren (Option.some c) &&
          !(token_is_type_plus (Option.some c) || token_is_type_minus (Option.some c))) =
          true := by
        rw [hpair, hok]
        rfl
      have hstep : validInfixGo (Option.some p) (c :: rest) = false := by
        simp only [validInfixGo]
        rw [hcond]
        simp
      rw [hstep]
      simp [adjacent_ops_ok, hok]
    · have hcond : (token_is_operator (Option.some c) && token_is_operator (Option.some p) &&
          !token_is_type_left_paren (Option.some p) &&
          !token_is_type_right_paren (Option.some c) &&
          !(token_is_type_plus (Option.some c) || token_is_type_minus (Option.some c))) =
          false := by
        rw [hpair, hok]
        rfl
      cases rest with
      | nil =>
        have hstep : validInfixGo (Option.some p) [c] =
            (if token_is_operator (Option.some c) = true then false else true) := by
          simp only [validInfixGo]
          rw [hcond]
          simp
        rw [hstep]
        cases hc : token_is_operator (Option.some c) <;>
          simp [adjacent_ops_ok, no_trailing_op, hok, hc]
      | cons d ds =>
        have hstep : validInfixGo (Option.some p) (c :: d :: ds) =
            validInfixGo (Option.some c) (d :: ds) := by
          simp only [validInfixGo]
          rw [hcond]
          simp
        rw [hstep, ih c]
        simp [adjacent_ops_ok, no_trailing_op, hok]

/-- C5 amended: `shunt_is_valid_infix` returns true exactly when no
operator token is immediately followed by an operator token other than `+`
or `-`, and the last token is not an operator.  In particular a trailing
operator flips it to false, but parenthesis balance is never consulted, so
an unmatched right parenthesis does not (see the counterexample). -/
theorem shuntIsValidInfix_characterization :
    ∀ l : List Token,
      shuntIsValidInfix l = (adjacent_ops_ok l && no_trailing_op l) := by
  intro l
  have hnone : token_is_operator Option.none = false := rfl
  cases l with
  | nil => rfl
  | cons c rest =>
    cases rest with
    | nil =>
      have hstep : shuntIsValidInfix [c] =
          (if token_is_operator (Option.some c) = true then false else true) := by
        simp only [shuntIsValidInfix, validInfixGo]
        rw [hnone]
        simp
      rw [hstep]
      cases hc : token_is_operator (Option.some c) <;>
        simp [adjacent_ops_ok, no_trailing_op, hc]
    | cons d ds =>
      have hstep : shuntIsValidInfix (c :: d :: ds) =
          validInfixGo (Option.some c) (d :: ds) := by
        simp only [shuntIsValidInfix, validInfixGo]
        rw [hnone]
        simp
      rw [hstep, validInfixGo_eq]
      simp [no_trailing_op]

/-- An operator character is one of the five operator characters. -/
theorem isop_cases (c : Char) (h : isop c = true) :
    c = '+' ∨ c = '-' ∨ c = '*' ∨ c = '/' ∨ c = '%' := by
  simpa [isop, or_assoc] using h

/-- A group character is one of the two parentheses. -/
theorem isgroup_cases (c : Char) (h : isgroup c = true) :
    c = '(' ∨ c = ')' := by
  simpa [isgroup] using h

/-- The token built from a digit-led numeric scan is well formed. -/
theorem token_create_number_wf (c : Char) (cs : List Char) (hd : c.isDigit = true) :
    tokWF (token_create_number (c :: cs)) = true := by
  obtain ⟨h1, h2, h3, h4, h5⟩ := num_scan_shape (c :: cs) false
  have hcons : (num_scan false (c :: cs)).1 = c :: (num_scan false cs).1 := by
    rw [num_scan_cons_digit false c cs hd]
  simp only [token_create_number, tokWF]
  rw [h3]
  simp only [Bool.false_or]
  by_cases hcont : (num_scan false (c :: cs)).1.contains '.' = true
  · rw [hcont]
    simp only [if_true]
    have hmem : '.' ∈ (num_scan false (c :: cs)).1 := by simpa using hcont
    have hcount1 : (num_scan false (c :: cs)).1.count '.' = 1 := by
      have hpos : 0 < (num_scan false (c :: cs)).1.count '.' := List.count_pos_iff.mpr hmem
      have hle : (num_scan false (c :: cs)).1.count '.' ≤ 1 := by simpa using h4
      omega
    rw [hcons] at h2 hcount1
    simp [hcons, hd, h2, hcount1]
  · have hcont' : (num_scan false (c :: cs)).1.contains '.' = false := by
      revert hcont
      cases (num_scan false (c :: cs)).1.contains '.' <;> simp
    rw [hcont']
    simp only [if_false, Bool.false_eq_true]
    have hall : ∀ x ∈ (num_scan false (c :: cs)).1, x.isDigit = true := by
      intro x hx
      have hxd : (x.isDigit || x == '.') = true := by
        have := List.all_eq_true.mp h2 x hx
        simpa using this
      rcases Bool.or_eq_true_iff.mp hxd with h | h
      · exact h
      · exfalso
        have hxe : x = '.' := by simpa using h
        subst hxe
        have hnm : '.' ∉ (num_scan false (c :: cs)).1 := by simpa using hcont'
        exact hnm hx
    rw [hcons] at hall
    have htail : ∀ x ∈ (num_scan false cs).1, x.isDigit = true := by
      intro x hx
      exact hall x (List.mem_cons_of_mem _ hx)
    simp [hcons, hd, List.all_eq_true]
    exact htail

/-- Every token a successful tokenizer run emits is well formed. -/
theorem tokenize_go_sound : ∀ (fuel : Nat) (cs : List Char) (ts : List Token),
    tokenize_go fuel cs = Option.some ts → ∀ t ∈ ts, tokWF t = true := by
  intro fuel
  induction fuel with
  | zero =>
    intro cs ts h t ht
    cases cs with
    | nil =>
      simp [tokenize_go] at h
      subst h
      simp at ht
    | cons c cs => simp [tokenize_go] at h
  | succ fuel ih =>
    intro cs ts h t ht
    cases cs with
    | nil =>
      simp [tokenize_go] at h
      subst h
      simp at ht
    | cons c cs =>
      simp only [tokenize_go] at h
      by_cases hdig : c.isDigit = true
      · rw [if_pos hdig] at h
        rw [Option.map_eq_some'] at h
        obtain ⟨ts', hts', hcons⟩ := h
        subst hcons
        rcases List.mem_cons.mp ht with rfl | hmem
        · exact token_create_number_wf c cs hdig
        · exact ih _ _ hts' t hmem
      · rw [if_neg hdig] at h
        by_cases hop : isop c = true
        · rw [if_pos hop] at h
          rw [Option.map_eq_some'] at h
          obtain ⟨ts', hts', hcons⟩ := h
          subst hcons
          rcases List.mem_cons.mp ht with rfl | hmem
          · rcases isop_cases c hop with rfl | rfl | rfl | rfl | rfl <;> decide
          · exact ih _ _ hts' t hmem
        · rw [if_neg hop] at h
          by_cases hgr : isgroup c = true
          · rw [if_pos hgr] at h
            rw [Option.map_eq_some'] at h
            obtain ⟨ts', hts', hcons⟩ := h
            subst hcons
            rcases List.mem_cons.mp ht with rfl | hmem
            · rcases isgroup_cases c hgr with rfl | rfl <;> decide
            · exact ih _ _ hts' t hmem
          · rw [if_neg hgr] at h
            by_cases hsp : isspacec c = true
            · rw [if_pos hsp] at h
              exact ih _ _ h t ht
            · rw [if_neg hsp] at h
              exact Option.noConfusion h

/-- Replaying `num_scan` on a well-shaped lexeme followed by a stopping
character consumes exactly the lexeme. -/
theorem num_scan_exact : ∀ (l : List Char) (seen : Bool) (rest : List Char),
    l.all (fun x => x.isDigit || x == '.') = true →
    (if seen then l.count '.' = 0 else l.count '.' ≤ 1) →
    (∀ d ds, rest = d :: ds → d.isDigit = false ∧ (d == '.') = false) →
    num_scan seen (l ++ rest) = (l, rest, seen || l.contains '.') := by
  intro l
  induction l with
  | nil =>
    intro seen rest _ _ hstop
    cases rest with
    | nil => cases seen <;> rfl
    | cons d ds =>
      obtain ⟨hd1, hd2⟩ := hstop d ds rfl
      simp only [List.nil_append, num_scan, hd1, Bool.false_eq_true, if_false]
      cases seen <;> simp [hd2]
  | cons x l ih =>
    intro seen rest hall hcount hstop
    have hx : (x.isDigit || x == '.') = true := by
      have := List.all_eq_true.mp hall x (List.mem_cons_self x l)
      simpa using this
    have halll : l.all (fun x => x.isDigit || x == '.') = true := by
      rw [List.all_eq_true] at hall
      rw [List.all_eq_true]
      intro a ha
      exact hall a (List.mem_cons_of_mem _ ha)
    rcases Bool.or_eq_true_iff.mp hx with hxd | hxdot
    · have hxne : (x == '.') = false := by
        cases hxx : x == '.'
        · rfl
        · have : x = '.' := by simpa using hxx
          rw [this] at hxd
          exact absurd hxd (by decide)
      have hxne' : x ≠ '.' := by
        intro hh
        rw [hh] at hxne
        simp at hxne
      have hcount' : (if seen then l.count '.' = 0 else l.count '.' ≤ 1) := by
        cases seen <;> simpa [List.count_cons, hxne'] using hcount
      have ihr := ih seen rest halll hcount' hstop
      have hne2 : ¬ ('.' = x) := fun hh => hxne' hh.symm
      simp only [List.cons_append, num_scan, hxd, if_true]
      simp [ihr, List.contains_cons, hne2]
    · have hxeq : x = '.' := by simpa using hxdot
      subst hxeq
      have hseen : seen = false := by
        cases hs : seen
        · rfl
        · rw [hs] at hcount
          simp [List.count_cons] at hcount
      subst hseen
      have hcount0 : l.count '.' = 0 := by
        simp [List.count_cons] at hcount
        omega
      have ihr := ih true rest halll (by simp [hcount0]) hstop
      have hxd : ('.' : Char).isDigit = false := by decide
      simp only [List.cons_append, num_scan, hxd, Bool.false_eq_true, if_false,
        Bool.not_false, Bool.true_and, beq_self_eq_true, if_true]
      simp [ihr, List.contains_cons]

/-- Unfolding helper: the character list of a built string. -/
theorem string_toList_mk (l : List Char) : (String.mk l).toList = l := rfl

/-- Re-tokenizing a well-formed number token's lexeme, followed by either
nothing or a character that stops the numeric scan, re-emits exactly that
token and continues on the remainder. -/
theorem tokenize_cons_number (t : Token) (rest : List Char)
    (hwf : tokWF t = true)
    (hnum : t.type = TokenType.integer ∨ t.type = TokenType.float)
    (hstop : ∀ d ds, rest = d :: ds → d.isDigit = false ∧ (d == '.') = false) :
    tokenize (t.lexeme.toList ++ rest) = (tokenize rest).map (fun ts => t :: ts) := by
  obtain ⟨tp, tas, tr, tk, tt, tsz, ⟨d⟩⟩ := t
  rcases hnum with hty | hty <;> subst hty
  · cases hd : d with
    | nil =>
      subst hd
      simp [tokWF, string_toList_mk] at hwf
    | cons c cs =>
      subst hd
      simp only [tokWF, string_toList_mk, Bool.and_eq_true, beq_iff_eq] at hwf
      obtain ⟨⟨⟨⟨⟨⟨hcd, hcs⟩, hk⟩, hr⟩, ha⟩, hp⟩, hs⟩ := hwf
      subst hk hr ha hp hs
      have hall : (c :: cs).all (fun x => x.isDigit || x == '.') = true := by
        rw [List.all_eq_true]
        intro a hamem
        rcases List.mem_cons.mp hamem with rfl | hmem
        · simp [hcd]
        · have := List.all_eq_true.mp hcs a hmem
          simp at this
          simp [this]
      have hnodot : ¬ ('.' ∈ (c :: cs)) := by
        intro hmem
        rcases List.mem_cons.mp hmem with hh | hmem
        · rw [← hh] at hcd
          exact absurd hcd (by decide)
        · have := List.all_eq_true.mp hcs '.' hmem
          simp at this
      have hcount : (c :: cs).count '.' = 0 := by
        rw [List.count_eq_zero]
        exact hnodot
      have hscan := num_scan_exact (c :: cs) false rest hall (by simp [hcount]) hstop
      have hcontains : (c :: cs).contains '.' = false := by
        simpa using hnodot
      rw [hcontains] at hscan
      simp only [string_toList_mk, List.cons_append]
      unfold tokenize
      rw [show (c :: (cs ++ rest)).length = (cs ++ rest).length + 1 from by simp]
      simp only [tokenize_go, hcd, if_true]
      have hscan' : num_scan false (c :: (cs ++ rest)) = (c :: cs, rest, false) := by
        rw [← List.cons_append]
        exact hscan
      have htok : token_create_number (c :: (cs ++ rest)) =
          { precedence := Precedent.none, association := Associate.none,
            role := TokenRole.none, kind := TokenKind.literal,
            type := TokenType.integer, size := (c :: cs).length,
            lexeme := String.mk (c :: cs) } := by
        simp [token_create_number, hscan']
      rw [htok]
      have hdrop : (c :: (cs ++ rest)).drop (c :: cs).length = rest := by
        rw [← List.cons_append]
        exact List.drop_left (c :: cs) rest
      simp only [hdrop]
      rw [tokenize_go_eq_tokenize ((cs ++ rest).length) rest (by simp)]
      rfl
  · cases hd : d with
    | nil =>
      subst hd
      simp [tokWF, string_toList_mk] at hwf
    | cons c cs =>
      subst hd
      simp only [tokWF, string_toList_mk, Bool.and_eq_true, beq_iff_eq] at hwf
      obtain ⟨⟨⟨⟨⟨⟨⟨hcd, hall⟩, hone⟩, hk⟩, hr⟩, ha⟩, hp⟩, hs⟩ := hwf
      subst hk hr ha hp hs
      have hone' : (c :: cs).count '.' = 1 := by
        simpa using hone
      have hmem : '.' ∈ (c :: cs) := by
        have hpos : 0 < (c :: cs).count '.' := by omega
        exact List.count_pos_iff.mp hpos
      have hcontains : (c :: cs).contains '.' = true := by
        simpa using hmem
      have hscan := num_scan_exact (c :: cs) false rest hall (by simp [hone']) hstop
      rw [hcontains] at hscan
      simp only [string_toList_mk, List.cons_append]
      unfold tokenize
      rw [show (c :: (cs ++ rest)).length = (cs ++ rest).length + 1 from by simp]
      simp only [tokenize_go, hcd, if_true]
      have hscan' : num_scan false (c :: (cs ++ rest)) = (c :: cs, rest, true) := by
        rw [← List.cons_append]
        exact hscan
      have htok : token_create_number (c :: (cs ++ rest)) =
          { precedence := Precedent.none, association := Associate.none,
            role := TokenRole.none, kind := TokenKind.literal,
            type := TokenType.float, size := (c :: cs).length,
            lexeme := String.mk (c :: cs) } := by
        simp [token_create_number, hscan']
      rw [htok]
      have hdrop : (c :: (cs ++ rest)).drop (c :: cs).length = rest := by
        rw [← List.cons_append]
        exact List.drop_left (c :: cs) rest
      simp only [hdrop]
      rw [tokenize_go_eq_tokenize ((cs ++ rest).length) rest (by simp)]
      rfl

/-- One tokenizer step at a non-digit character. -/
theorem tokenize_cons_char (c : Char) (rest : List Char) (hdig : c.isDigit = false) :
    tokenize (c :: rest) =
      (if isop c = true then (tokenize rest).map (fun ts => token_create_operator c :: ts)
       else if isgroup c = true then (tokenize rest).map (fun ts => token_create_group c :: ts)
       else if isspacec c = true then tokenize rest
       else Option.none) := by
  unfold tokenize
  rw [show (c :: rest).length = rest.length + 1 from by simp]
  simp only [tokenize_go, hdig, Bool.false_eq_true, if_false]

/-- A number token (by `type`) is Integer or Float. -/
theorem number_type_cases (t : Token) (h : token_is_number (Option.some t) = true) :
    t.type = TokenType.integer ∨ t.type = TokenType.float := by
  cases htt : t.type <;>
    first
      | exact Or.inl rfl
      | exact Or.inr rfl
      | (exfalso; simp [token_is_number, htt] at h)

/-- Re-tokenizing a well-formed operator or parenthesis token's lexeme
re-emits exactly that token and continues on the remainder. -/
theorem tokenize_cons_symbol (t : Token) (rest : List Char)
    (hwf : tokWF t = true)
    (hnotnum : token_is_number (Option.some t) = false) :
    tokenize (t.lexeme.toList ++ rest) = (tokenize rest).map (fun ts => t :: ts) := by
  cases htype : t.type
  case none =>
    exfalso
    simp [tokWF, htype] at hwf
  case integer =>
    exfalso
    rw [show token_is_number (Option.some t) = true from by simp [token_is_number, htype]]
      at hnotnum
    exact Bool.noConfusion hnotnum
  case float =>
    exfalso
    rw [show token_is_number (Option.some t) = true from by simp [token_is_number, htype]]
      at hnotnum
    exact Bool.noConfusion hnotnum
  case plus =>
    have hu : t = token_create_operator '+' := by
      simpa [tokWF, htype] using hwf
    subst hu
    rw [show (token_create_operator '+').lexeme.toList ++ rest = '+' :: rest from rfl]
    rw [tokenize_cons_char '+' rest (by decide)]
    simp [isop]
  case minus =>
    have hu : t = token_create_operator '-' := by
      simpa [tokWF, htype] using hwf
    subst hu
    rw [show (token_create_operator '-').lexeme.toList ++ rest = '-' :: rest from rfl]
    rw [tokenize_cons_char '-' rest (by decide)]
    simp [isop]
  case star =>
    have hu : t = token_create_operator '*' := by
      simpa [tokWF, htype] using hwf
    subst hu
    rw [show (token_create_operator '*').lexeme.toList ++ rest = '*' :: rest from rfl]
    rw [tokenize_cons_char '*' rest (by decide)]
    simp [isop]
  case slash =>
    have hu : t = token_create_operator '/' := by
      simpa [tokWF, htype] using hwf
    subst hu
    rw [show (token_create_operator '/').lexeme.toList ++ rest = '/' :: rest from rfl]
    rw [tokenize_cons_char '/' rest (by decide)]
    simp [isop]
  case mod =>
    have hu : t = token_create_operator '%' := by
      simpa [tokWF, htype] using hwf
    subst hu
    rw [show (token_create_operator '%').lexeme.toList ++ rest = '%' :: rest from rfl]
    rw [tokenize_cons_char '%' rest (by decide)]
    simp [isop]
  case leftParen =>
    have hu : t = token_create_group '(' := by
      simpa [tokWF, htype] using hwf
    subst hu
    rw [show (token_create_group '(').lexeme.toList ++ rest = '(' :: rest from rfl]
    rw [tokenize_cons_char '(' rest (by decide)]
    simp [isop, isgroup]
  case rightParen =>
    have hu : t = token_create_group ')' := by
      simpa [tokWF, htype] using hwf
    subst hu
    rw [show (token_create_group ')').lexeme.toList ++ rest = ')' :: rest from rfl]
    rw [tokenize_cons_char ')' rest (by decide)]
    simp [isop, isgroup]

/-- Concatenating the lexemes of well-formed tokens with no two adjacent
literals and re-tokenizing reproduces exactly the same token list. -/
theorem tokenize_lexcat_wf : ∀ ts : List Token,
    (∀ t ∈ ts, tokWF t = true) → no_adjacent_literals ts = true →
    tokenize (lexcat ts) = Option.some ts := by
  intro ts
  induction ts with
  | nil =>
    intro _ _
    rfl
  | cons t ts ih =>
    intro hwf hadj
    have hwt : tokWF t = true := hwf t (List.mem_cons_self t ts)
    have hwts : ∀ u ∈ ts, tokWF u = true := fun u hu => hwf u (List.mem_cons_of_mem _ hu)
    have hadj' : no_adjacent_literals ts = true := by
      cases ts with
      | nil => rfl
      | cons u ts' =>
        have hsplit := hadj
        simp only [no_adjacent_literals, Bool.and_eq_true] at hsplit
        exact hsplit.2
    have hlex : lexcat (t :: ts) = t.lexeme.toList ++ lexcat ts := by
      simp [lexcat]
    rw [hlex]
    by_cases hnum : token_is_number (Option.some t) = true
    · have hstop : ∀ d ds, lexcat ts = d :: ds →
          d.isDigit = false ∧ (d == '.') = false := by
        intro d ds hcat
        cases ts with
        | nil => simp [lexcat] at hcat
        | cons u ts' =>
          have hun : token_is_number (Option.some u) = false := by
            have hsplit := hadj
            simp only [no_adjacent_literals, Bool.and_eq_true] at hsplit
            have h1 := hsplit.1
            cases hu : token_is_number (Option.some u)
            · rfl
            · rw [hnum, hu] at h1
              simp at h1
          have hwu : tokWF u = true := hwts u (List.mem_cons_self u ts')
          obtain ⟨ch, hch, hch1, hch2⟩ : ∃ ch, u.lexeme.toList = [ch] ∧
              ch.isDigit = false ∧ (ch == '.') = false := by
            cases hut : u.type
            case none =>
              exfalso
              simp [tokWF, hut] at hwu
            case integer =>
              exfalso
              simp [token_is_number, hut] at hun
            case float =>
              exfalso
              simp [token_is_number, hut] at hun
            case plus =>
              have hu : u = token_create_operator '+' := by simpa [tokWF, hut] using hwu
              exact ⟨'+', by rw [hu]; rfl, by decide, by decide⟩
            case minus =>
              have hu : u = token_create_operator '-' := by simpa [tokWF, hut] using hwu
              exact ⟨'-', by rw [hu]; rfl, by decide, by decide⟩
            case star =>
              have hu : u = token_create_operator '*' := by simpa [tokWF, hut] using hwu
              exact ⟨'*', by rw [hu]; rfl, by decide, by decide⟩
            case slash =>
              have hu : u = token_create_operator '/' := by simpa [tokWF, hut] using hwu
              exact ⟨'/', by rw [hu]; rfl, by decide, by decide⟩
            case mod =>
              have hu : u = token_create_operator '%' := by simpa [tokWF, hut] using hwu
              exact ⟨'%', by rw [hu]; rfl, by decide, by decide⟩
            case leftParen =>
              have hu : u = token_create_group '(' := by simpa [tokWF, hut] using hwu
              exact ⟨'(', by rw [hu]; rfl, by decide, by decide⟩
            case rightParen =>
              have hu : u = token_create_group ')' := by simpa [tokWF, hut] using hwu
              exact ⟨')', by rw [hu]; rfl, by decide, by decide⟩
          have hcat' : lexcat (u :: ts') = ch :: lexcat ts' := by
            have hchd : u.lexeme.data = [ch] := hch
            simp [lexcat, hchd]
          rw [hcat'] at hcat
          injection hcat with hd1 _
          subst hd1
          exact ⟨hch1, hch2⟩
      rw [tokenize_cons_number t (lexcat ts) hwt (number_type_cases t hnum) hstop]
      rw [ih hwts hadj']
      rfl
    · have hnum' : token_is_number (Option.some t) = false := by
        revert hnum
        cases token_is_number (Option.some t) <;> simp
      rw [tokenize_cons_symbol t (lexcat ts) hwt hnum']
      rw [ih hwts hadj']
      rfl

/-- C6 amended: for every successfully tokenized sequence in which no
literal immediately follows another literal, re-tokenizing the lexeme
concatenation reproduces exactly the same token sequence (in particular
the same kinds and types in order).  Without that proviso the property
fails: two whitespace-separated literals merge, see the counterexample. -/
theorem tokenize_roundtrip_no_adjacent_literals :
    ∀ (cs : List Char) (ts : List Token),
      tokenize cs = Option.some ts → no_adjacent_literals ts = true →
      tokenize (lexcat ts) = Option.some ts := by
  intro cs ts h hadj
  exact tokenize_lexcat_wf ts (tokenize_go_sound cs.length cs ts h) hadj

/-- C6 witness: the roundtrip theorem applied to the tokenization of
`"1+2"`. -/
theorem tokenize_roundtrip_no_adjacent_literals_witness :
    tokenize ("1+2".toList) = Option.some [tokOne, tokPlus, tokTwo] ∧
    no_adjacent_literals [tokOne, tokPlus, tokTwo] = true ∧
    tokenize (lexcat [tokOne, tokPlus, tokTwo]) = Option.some [tokOne, tokPlus, tokTwo] :=
  ⟨by decide, by decide,
    tokenize_roundtrip_no_adjacent_literals ("1+2".toList) [tokOne, tokPlus, tokTwo]
      (by decide) (by decide)⟩
